import Mathlib

/-!
Shallow embedding of `src/shroom-game.py` (a grid chase game driven by chat
commands).  Pure data and game logic are translated directly; the three
effectful ingredients are made explicit parameters:

* the clock (`time.time()`) becomes an integer argument `now`;
* the random position draws of `spawn_mushroom`'s rejection-sampling loop
  become an explicit list `draws` of candidate positions, consumed in order
  (`none` is returned when the list is exhausted, modelling a loop that has
  not yet terminated on the supplied draws);
* `random.choice(possible_moves)` becomes an index `rc` reduced modulo the
  length of `possible_moves`, and `random.random() < 0.3` becomes a boolean
  `doSpawn`.

The global dictionary `game_states` is only ever read and written at the key
`chat_id` inside `update_game_state`, so the embedding takes the per-session
view: the entry for the session (an `Option RoundState`) goes in, and the
message together with the updated entry (`none` when the Python code executes
`del game_states[chat_id]`) comes out.
-/

namespace Shroom

/-- A board position, Python's `(x, y)` tuple of ints. -/
abbrev Pos := Int × Int

/-- `BOARD_SIZE = 10`: the board is 10x10. -/
def BOARD_SIZE : Int := 10

/-- `ROUND_DURATION = 60`: each round lasts 60 seconds. -/
def ROUND_DURATION : Int := 60

/-- `MAX_MUSHROOMS = 5`: maximum number of mushrooms on the board. -/
def MAX_MUSHROOMS : Nat := 5

/-- The per-chat game state dictionary built by `init_game`. -/
structure RoundState where
  level : Nat
  score : Nat
  collected : Nat
  required : Nat
  player_pos : Pos
  raven_pos : Pos
  mushrooms : List Pos
  start_time : Int
deriving DecidableEq, Repr

/-- The `while True` loop of `spawn_mushroom`: draw candidate positions in
order, skipping any that collide with the player, the raven or an existing
mushroom, and append the first free one (Python `list.append`).  Returns the
updated state and the unconsumed draws, or `none` if the supplied draws are
exhausted (the Python loop would keep drawing). -/
def spawnLoop (state : RoundState) : List Pos → Option (RoundState × List Pos)
  | [] => none
  | p :: rest =>
    if p = state.player_pos ∨ p = state.raven_pos ∨ p ∈ state.mushrooms then
      spawnLoop state rest
    else
      some ({ state with mushrooms := state.mushrooms ++ [p] }, rest)

/-- `spawn_mushroom(state)`: no-op when the board already holds
`MAX_MUSHROOMS` mushrooms, otherwise run the rejection-sampling loop. -/
def spawn_mushroom (state : RoundState) (draws : List Pos) :
    Option (RoundState × List Pos) :=
  if MAX_MUSHROOMS ≤ state.mushrooms.length then some (state, draws)
  else spawnLoop state draws

/-- `n` successive calls of `spawn_mushroom` (the `for _ in range(3)` loops),
threading the draw list through. -/
def spawnN : Nat → RoundState → List Pos → Option (RoundState × List Pos)
  | 0, s, d => some (s, d)
  | n + 1, s, d => (spawn_mushroom s d).bind fun sd => spawnN n sd.1 sd.2

/-- The fresh state literal built at the top of `init_game`, before the three
initial mushrooms are spawned. -/
def initState (now : Int) : RoundState :=
  { level := 1
    score := 0
    collected := 0
    required := 3
    player_pos := (0, 0)
    raven_pos := (BOARD_SIZE - 1, BOARD_SIZE - 1)
    mushrooms := []
    start_time := now }

/-- `init_game(chat_id)`: build the fresh state and spawn three mushrooms.
The result is the state stored into `game_states[chat_id]`. -/
def init_game (now : Int) (draws : List Pos) : Option RoundState :=
  (spawnN 3 (initState now) draws).map Prod.fst

/-- Python's `abs(pos[0] - rx) + abs(pos[1] - ry)`: Manhattan distance. -/
def manhattan (a b : Pos) : Int := |a.1 - b.1| + |a.2 - b.2|

/-- Python's `min(iterable, key=...)`: fold that replaces the current best
only on a strictly smaller key, so the first minimiser in encounter order
wins ties. -/
def pyminBy (key : Pos → Int) : Pos → List Pos → Pos
  | best, [] => best
  | best, p :: rest => pyminBy key (if key p < key best then p else best) rest

/-- `dx = 1 if target > r else -1 if target < r else 0` from `move_raven`. -/
def stepToward (r target : Int) : Int :=
  if r < target then 1 else if target < r then -1 else 0

/-- The `possible_moves` list built by `move_raven` when no mushrooms exist:
the axis-aligned unit moves that stay on the board, in source order. -/
def possibleMoves (rx ry : Int) : List Pos :=
  (if 0 < rx then [((-1 : Int), (0 : Int))] else []) ++
  (if rx < BOARD_SIZE - 1 then [((1 : Int), (0 : Int))] else []) ++
  (if 0 < ry then [((0 : Int), (-1 : Int))] else []) ++
  (if ry < BOARD_SIZE - 1 then [((0 : Int), (1 : Int))] else [])

/-- `move_raven(state)`: with mushrooms present, step one cell per axis toward
the nearest mushroom (Manhattan distance, first minimiser on ties); with none,
pick one of the legal unit moves (`random.choice` modelled by index `rc` mod
the list length), or stay put if there is none. -/
def move_raven (state : RoundState) (rc : Nat) : RoundState :=
  let rx := state.raven_pos.1
  let ry := state.raven_pos.2
  match state.mushrooms with
  | m :: ms =>
    let target := pyminBy (fun pos => manhattan pos (rx, ry)) m ms
    { state with
        raven_pos := (rx + stepToward rx target.1, ry + stepToward ry target.2) }
  | [] =>
    match possibleMoves rx ry with
    | [] => state
    | mv :: mvs =>
      let d := (mv :: mvs).get ⟨rc % (mv :: mvs).length, Nat.mod_lt rc (Nat.succ_pos mvs.length)⟩
      { state with raven_pos := (rx + d.1, ry + d.2) }

/-- The player-movement block of `update_game_state` (the spec's `clampMove`):
decrement/increment one axis, clamped to the board; any other direction
string leaves the position unchanged. -/
def clampMove (p : Pos) (dir : String) : Pos :=
  if dir = "up" then (p.1, max (p.2 - 1) 0)
  else if dir = "down" then (p.1, min (p.2 + 1) (BOARD_SIZE - 1))
  else if dir = "left" then (max (p.1 - 1) 0, p.2)
  else if dir = "right" then (min (p.1 + 1) (BOARD_SIZE - 1), p.2)
  else p

/-- The collection block of `update_game_state`: if the player's (new)
position lies on a mushroom, remove that mushroom (`list.remove` drops the
first occurrence, as `List.erase` does), add 10 to the score and 1 to the
collected count. -/
def collectStep (state : RoundState) : RoundState :=
  if state.player_pos ∈ state.mushrooms then
    { state with
        mushrooms := state.mushrooms.erase state.player_pos
        score := state.score + 10
        collected := state.collected + 1 }
  else state

/-- Movement, collection and raven step of `update_game_state`, in source
order: move the player, collect, then move the raven. -/
def afterMoves (s : RoundState) (dir : String) (rc : Nat) : RoundState :=
  move_raven (collectStep { s with player_pos := clampMove s.player_pos dir }) rc

/-- The final cell content of `render_board`'s grid at `(x, y)`: mushrooms
are drawn first, the raven overwrites, the player overwrites last. -/
def cellChar (state : RoundState) (x y : Int) : String :=
  if (x, y) = state.player_pos then "🙂"
  else if (x, y) = state.raven_pos then "🐦"
  else if (x, y) ∈ state.mushrooms then "🍄"
  else "⬜"

/-- `render_board(state)`: the grid rows joined by newlines, then the stats
line following the f-string. -/
def render_board (state : RoundState) (now : Int) : String :=
  let rows := (List.range 10).map fun y =>
    String.join ((List.range 10).map fun x =>
      cellChar state (Int.ofNat x) (Int.ofNat y))
  let board_text := String.intercalate "\n" rows
  let time_left := max 0 (state.start_time + ROUND_DURATION - now)
  board_text ++ "\n" ++
    "Level: " ++ toString state.level ++ "  Score: " ++ toString state.score ++
    "  Collected: " ++ toString state.collected ++ "/" ++ toString state.required ++
    "\nTime Left: " ++ toString time_left ++ "s"

/-- `"Game not started. Use /start to begin."` -/
def notStartedMsg : String := "Game not started. Use /start to begin."

/-- `"Time's up! "` -/
def timesUpMsg : String := "Time's up! "

/-- The game-over message of the expiry branch. -/
def gameOverMsg : String :=
  timesUpMsg ++ "Game over! You didn't collect enough mushrooms."

/-- The level-up message, as a function of the (already incremented) level. -/
def levelUpMsg (lvl : Nat) : String :=
  timesUpMsg ++ "You progressed to level " ++ toString lvl ++ "!"

/-- `"Oh no! The raven caught you. Game over!"` -/
def caughtMsg : String := "Oh no! The raven caught you. Game over!"

/-- The in-place mutations of the level-up branch before the three respawns:
increment level, raise the requirement by 2, reset collected, positions and
mushrooms. -/
def levelUpReset (s : RoundState) : RoundState :=
  { s with
      level := s.level + 1
      required := s.required + 2
      collected := 0
      player_pos := (0, 0)
      raven_pos := (BOARD_SIZE - 1, BOARD_SIZE - 1)
      mushrooms := [] }

/-- `update_game_state(chat_id, move_direction)`, per-session view.  The
first component of the result is the returned message, the second the
session's registry entry after the call (`none` after
`del game_states[chat_id]`).  The outer `Option` is `none` only when a
spawn loop runs out of draws. -/
def update_game_state (gs : Option RoundState) (dir : String) (now : Int)
    (draws : List Pos) (rc : Nat) (doSpawn : Bool) :
    Option (String × Option RoundState) :=
  match gs with
  | none => some (notStartedMsg, none)
  | some state =>
    if state.start_time + ROUND_DURATION - now ≤ 0 then
      if state.required ≤ state.collected then
        match spawnN 3 (levelUpReset state) draws with
        | none => none
        | some (s2, _) =>
          some (levelUpMsg s2.level, some { s2 with start_time := now })
      else
        some (gameOverMsg, none)
    else
      let s3 := afterMoves state dir rc
      if s3.player_pos = s3.raven_pos then
        some (caughtMsg, none)
      else if doSpawn then
        match spawn_mushroom s3 draws with
        | none => none
        | some (s4, _) => some (render_board s4 now, some s4)
      else
        some (render_board s3 now, some s3)

/-- Both coordinates within `[0, BOARD_SIZE - 1]`. -/
def inGrid (p : Pos) : Prop :=
  0 ≤ p.1 ∧ p.1 ≤ BOARD_SIZE - 1 ∧ 0 ≤ p.2 ∧ p.2 ≤ BOARD_SIZE - 1

instance (p : Pos) : Decidable (inGrid p) := by
  unfold inGrid; infer_instance

/-! ### Concrete states used to instantiate the theorems -/

/-- The spec's adversary example: one mushroom at `(3,3)`, raven at `(0,0)`. -/
def exGreedyState : RoundState :=
  { level := 1, score := 0, collected := 0, required := 3,
    player_pos := (0, 0), raven_pos := (0, 0), mushrooms := [(3, 3)],
    start_time := 0 }

/-- Moving up from `(3,4)` collects the mushroom at `(3,3)`; the raven at
`(2,2)` then chases `(7,7)` diagonally onto the player. -/
def exCaughtState : RoundState :=
  { level := 1, score := 0, collected := 0, required := 3,
    player_pos := (3, 4), raven_pos := (2, 2), mushrooms := [(3, 3), (7, 7)],
    start_time := 0 }

/-- A state that has met its requirement (`collected = required = 3`). -/
def exLevelUpState : RoundState :=
  { level := 1, score := 30, collected := 3, required := 3,
    player_pos := (4, 4), raven_pos := (5, 5), mushrooms := [],
    start_time := 0 }

/-- The state reached from `levelUpReset exLevelUpState` by spawning the
draws `(1,1), (2,2), (3,3)`. -/
def exLevelUpAfter : RoundState :=
  { level := 2, score := 30, collected := 0, required := 5,
    player_pos := (0, 0), raven_pos := (9, 9),
    mushrooms := [(1, 1), (2, 2), (3, 3)], start_time := 0 }

/-- A state whose round expires with `collected = 2 < 3 = required`. -/
def exExpiredState : RoundState :=
  { level := 1, score := 20, collected := 2, required := 3,
    player_pos := (1, 1), raven_pos := (8, 8), mushrooms := [(5, 5)],
    start_time := 0 }

/-- Moving up from `(3,4)` lands on the mushroom at `(3,3)`. -/
def exCollectState : RoundState :=
  { level := 1, score := 0, collected := 0, required := 3,
    player_pos := (3, 4), raven_pos := (7, 7), mushrooms := [(3, 3)],
    start_time := 0 }

/-- In-bounds player and raven but a mushroom off the board at `(10,0)`:
the raven chases it off the grid. -/
def exBadBoundsState : RoundState :=
  { level := 1, score := 0, collected := 0, required := 3,
    player_pos := (0, 0), raven_pos := (9, 0), mushrooms := [(10, 0)],
    start_time := 0 }

/-- A fully in-bounds state. -/
def exBoundsState : RoundState :=
  { level := 1, score := 0, collected := 0, required := 3,
    player_pos := (0, 0), raven_pos := (9, 9), mushrooms := [(3, 3)],
    start_time := 0 }

/-- A board already holding `MAX_MUSHROOMS` mushrooms. -/
def exFullState : RoundState :=
  { level := 1, score := 0, collected := 0, required := 3,
    player_pos := (0, 0), raven_pos := (9, 9),
    mushrooms := [(1, 1), (2, 2), (3, 3), (4, 4), (5, 5)], start_time := 0 }

/-- A board with room to spawn. -/
def exRoomState : RoundState :=
  { level := 1, score := 0, collected := 0, required := 3,
    player_pos := (0, 0), raven_pos := (9, 9), mushrooms := [(2, 2)],
    start_time := 0 }

/-- The state produced by `init_game 5 [(1,1), (2,2), (3,3)]`. -/
def exInitResult : RoundState :=
  { level := 1, score := 0, collected := 0, required := 3,
    player_pos := (0, 0), raven_pos := (9, 9),
    mushrooms := [(1, 1), (2, 2), (3, 3)], start_time := 5 }

/-! ### Properties of the spawn loop -/

/-- A successful `spawnLoop` run appends exactly one position, and that
position collides with nothing already on the board. -/
lemma spawnLoop_success (draws : List Pos) (s s' : RoundState) (d' : List Pos)
    (h : spawnLoop s draws = some (s', d')) :
    ∃ p, p ≠ s.player_pos ∧ p ≠ s.raven_pos ∧ p ∉ s.mushrooms ∧
      s' = { s with mushrooms := s.mushrooms ++ [p] } := by
  induction draws with
  | nil => simp [spawnLoop] at h
  | cons p rest ih =>
    rw [spawnLoop] at h
    split at h
    · exact ih h
    · rename_i hfree
      push_neg at hfree
      simp only [Option.some.injEq, Prod.mk.injEq] at h
      exact ⟨p, hfree.1, hfree.2.1, hfree.2.2, h.1.symm⟩

/-- A successful `spawn_mushroom` either leaves the state alone (board full)
or, when below the cap, appends exactly one fresh position. -/
lemma spawn_mushroom_cases (s s' : RoundState) (draws d' : List Pos)
    (h : spawn_mushroom s draws = some (s', d')) :
    s' = s ∨
    (s.mushrooms.length < MAX_MUSHROOMS ∧
      ∃ p, p ≠ s.player_pos ∧ p ≠ s.raven_pos ∧ p ∉ s.mushrooms ∧
        s' = { s with mushrooms := s.mushrooms ++ [p] }) := by
  unfold spawn_mushroom at h
  split at h
  · simp only [Option.some.injEq, Prod.mk.injEq] at h
    exact Or.inl h.1.symm
  · rename_i hlt
    exact Or.inr ⟨Nat.lt_of_not_le hlt, spawnLoop_success draws s s' d' h⟩

/-- `spawn_mushroom` touches only the mushroom list. -/
lemma spawn_mushroom_fields (s s' : RoundState) (draws d' : List Pos)
    (h : spawn_mushroom s draws = some (s', d')) :
    s'.level = s.level ∧ s'.score = s.score ∧ s'.collected = s.collected ∧
    s'.required = s.required ∧ s'.player_pos = s.player_pos ∧
    s'.raven_pos = s.raven_pos ∧ s'.start_time = s.start_time := by
  rcases spawn_mushroom_cases s s' draws d' h with h1 | ⟨_, p, _, _, _, h1⟩ <;>
    subst h1 <;> exact ⟨rfl, rfl, rfl, rfl, rfl, rfl, rfl⟩

/-- `spawnN` touches only the mushroom list. -/
lemma spawnN_fields (n : Nat) :
    ∀ (s : RoundState) (draws : List Pos) (s' : RoundState) (d' : List Pos),
      spawnN n s draws = some (s', d') →
      s'.level = s.level ∧ s'.score = s.score ∧ s'.collected = s.collected ∧
      s'.required = s.required ∧ s'.player_pos = s.player_pos ∧
      s'.raven_pos = s.raven_pos ∧ s'.start_time = s.start_time := by
  induction n with
  | zero =>
    intro s draws s' d' h
    simp only [spawnN, Option.some.injEq, Prod.mk.injEq] at h
    rw [← h.1]
    exact ⟨rfl, rfl, rfl, rfl, rfl, rfl, rfl⟩
  | succ n ih =>
    intro s draws s' d' h
    simp only [spawnN, Option.bind_eq_some] at h
    obtain ⟨⟨s1, d1⟩, h1, h2⟩ := h
    obtain ⟨e1, e2, e3, e4, e5, e6, e7⟩ := spawn_mushroom_fields s s1 draws d1 h1
    obtain ⟨f1, f2, f3, f4, f5, f6, f7⟩ := ih s1 d1 s' d' h2
    exact ⟨f1.trans e1, f2.trans e2, f3.trans e3, f4.trans e4,
      f5.trans e5, f6.trans e6, f7.trans e7⟩

/-- When there is room for `n` more mushrooms, a successful `spawnN n` adds
exactly `n` of them, keeps the list duplicate-free, and every added mushroom
avoids the player and the raven. -/
lemma spawnN_inventory (n : Nat) :
    ∀ (s : RoundState) (draws : List Pos) (s' : RoundState) (d' : List Pos),
      spawnN n s draws = some (s', d') →
      s.mushrooms.length + n ≤ MAX_MUSHROOMS →
      s'.mushrooms.length = s.mushrooms.length + n ∧
      (s.mushrooms.Nodup → s'.mushrooms.Nodup) ∧
      (∀ q ∈ s'.mushrooms, q ∈ s.mushrooms ∨
        (q ≠ s.player_pos ∧ q ≠ s.raven_pos)) := by
  induction n with
  | zero =>
    intro s draws s' d' h _
    simp only [spawnN, Option.some.injEq, Prod.mk.injEq] at h
    rw [← h.1]
    exact ⟨rfl, fun hn => hn, fun q hq => Or.inl hq⟩
  | succ n ih =>
    intro s draws s' d' h hroom
    simp only [spawnN, Option.bind_eq_some] at h
    obtain ⟨⟨s1, d1⟩, h1, h2⟩ := h
    have hlt : s.mushrooms.length < MAX_MUSHROOMS := by omega
    rcases spawn_mushroom_cases s s1 draws d1 h1 with he | ⟨_, p, hp1, hp2, hp3, he⟩
    · -- the no-op case of `spawn_mushroom` needs the board full, contradicting `hlt`
      exfalso
      unfold spawn_mushroom at h1
      rw [if_neg (Nat.not_le.mpr hlt)] at h1
      obtain ⟨q, _, _, hq3, hq4⟩ := spawnLoop_success draws s s1 d1 h1
      have hbad := congrArg (fun st => st.mushrooms.length) (he.symm.trans hq4)
      simp only [List.length_append, List.length_singleton] at hbad
      omega
    · subst he
      obtain ⟨g1, g2, g3⟩ := ih _ d1 s' d' h2
        (by simp only [List.length_append, List.length_singleton]; omega)
      refine ⟨?_, ?_, ?_⟩
      · simp only [List.length_append, List.length_singleton] at g1
        omega
      · intro hnd
        apply g2
        exact hnd.append (List.nodup_singleton p)
          (by simpa [List.disjoint_right] using hp3)
      · intro q hq
        rcases g3 q hq with hmem | hfresh
        · rcases List.mem_append.mp hmem with hmem | hmem
          · exact Or.inl hmem
          · simp only [List.mem_singleton] at hmem
            subst hmem
            exact Or.inr ⟨hp1, hp2⟩
        · exact Or.inr hfresh

/-- Any number of successful spawn attempts keeps the mushroom count at or
below `MAX_MUSHROOMS`. -/
lemma spawnN_le_max (n : Nat) :
    ∀ (s : RoundState) (draws : List Pos) (s' : RoundState) (d' : List Pos),
      spawnN n s draws = some (s', d') →
      s.mushrooms.length ≤ MAX_MUSHROOMS →
      s'.mushrooms.length ≤ MAX_MUSHROOMS := by
  induction n with
  | zero =>
    intro s draws s' d' h hle
    simp only [spawnN, Option.some.injEq, Prod.mk.injEq] at h
    rw [← h.1]; exact hle
  | succ n ih =>
    intro s draws s' d' h hle
    simp only [spawnN, Option.bind_eq_some] at h
    obtain ⟨⟨s1, d1⟩, h1, h2⟩ := h
    apply ih s1 d1 s' d' h2
    rcases spawn_mushroom_cases s s1 draws d1 h1 with he | ⟨hlt, p, _, _, _, he⟩ <;>
      subst he
    · exact hle
    · simpa using hlt

/-! ### Properties of `pyminBy` (Python's `min` with a key) -/

/-- Fold invariant for `pyminBy`: the result never has a larger key than the
seed or any list element, and when it improves on the seed it is the first
list element reaching its key. -/
lemma pyminBy_fold (key : Pos → Int) (l : List Pos) :
    ∀ best : Pos,
      key (pyminBy key best l) ≤ key best ∧
      (∀ x ∈ l, key (pyminBy key best l) ≤ key x) ∧
      (if key (pyminBy key best l) < key best
        then l.find? (fun x => decide (key x ≤ key (pyminBy key best l))) =
          some (pyminBy key best l)
        else pyminBy key best l = best) := by
  induction l with
  | nil =>
    intro best
    simp only [pyminBy]
    refine ⟨le_refl _, by simp, ?_⟩
    rw [if_neg (lt_irrefl _)]
    trivial
  | cons p rest ih =>
    intro best
    rw [pyminBy]
    by_cases hpb : key p < key best
    · rw [if_pos hpb]
      obtain ⟨ih1, ih2, ih3⟩ := ih p
      have hlt : key (pyminBy key p rest) < key best := lt_of_le_of_lt ih1 hpb
      refine ⟨le_of_lt hlt, ?_, ?_⟩
      · intro x hx
        rcases List.mem_cons.mp hx with rfl | hx
        · exact ih1
        · exact ih2 x hx
      · rw [if_pos hlt]
        by_cases hmp : key (pyminBy key p rest) < key p
        · rw [if_pos hmp] at ih3
          rw [List.find?_cons_of_neg, ih3]
          simp [Int.not_le.mpr hmp]
        · rw [if_neg hmp] at ih3
          rw [ih3, List.find?_cons_of_pos]
          simp
    · rw [if_neg hpb]
      obtain ⟨ih1, ih2, ih3⟩ := ih best
      refine ⟨ih1, ?_, ?_⟩
      · intro x hx
        rcases List.mem_cons.mp hx with rfl | hx
        · exact le_trans ih1 (Int.not_lt.mp hpb)
        · exact ih2 x hx
      · by_cases hmb : key (pyminBy key best rest) < key best
        · rw [if_pos hmb]
          rw [if_pos hmb] at ih3
          rw [List.find?_cons_of_neg, ih3]
          have : key p > key (pyminBy key best rest) :=
            lt_of_lt_of_le hmb (Int.not_lt.mp hpb)
          simp [Int.not_le.mpr this]
        · rw [if_neg hmb]
          rw [if_neg hmb] at ih3
          exact ih3

/-- On a nonempty list (head `m`, tail `ms`) `pyminBy` picks a member whose
key is minimal, and it picks the first member in encounter order whose key
reaches that minimum. -/
lemma pyminBy_first (key : Pos → Int) (m : Pos) (ms : List Pos) :
    pyminBy key m ms ∈ m :: ms ∧
    (∀ x ∈ m :: ms, key (pyminBy key m ms) ≤ key x) ∧
    (m :: ms).find? (fun x => decide (key x ≤ key (pyminBy key m ms))) =
      some (pyminBy key m ms) := by
  obtain ⟨h1, h2, h3⟩ := pyminBy_fold key ms m
  by_cases hlt : key (pyminBy key m ms) < key m
  · rw [if_pos hlt] at h3
    refine ⟨List.mem_cons_of_mem m (List.mem_of_find?_eq_some h3), ?_, ?_⟩
    · intro x hx
      rcases List.mem_cons.mp hx with rfl | hx
      · exact h1
      · exact h2 x hx
    · rw [List.find?_cons_of_neg, h3]
      simp [Int.not_le.mpr hlt]
  · rw [if_neg hlt] at h3
    rw [h3]
    refine ⟨List.mem_cons_self m ms, ?_, ?_⟩
    · intro x hx
      rcases List.mem_cons.mp hx with rfl | hx
      · exact le_refl _
      · exact h3 ▸ h2 x hx
    · rw [List.find?_cons_of_pos]
      simp

/-! ### Properties of `stepToward` -/

/-- The Python conditional expression computes the sign of `target - r`. -/
lemma stepToward_eq_sign (r target : Int) :
    stepToward r target = (target - r).sign := by
  unfold stepToward
  rcases lt_trichotomy r target with h | h | h
  · rw [if_pos h, Int.sign_eq_one_iff_pos.mpr (by omega)]
  · subst h
    rw [if_neg (lt_irrefl r), if_neg (lt_irrefl r)]
    simp
  · rw [if_neg (by omega), if_pos h, Int.sign_eq_neg_one_iff_neg.mpr (by omega)]

/-- Moving one `stepToward` step strictly closes a nonzero axis gap by one. -/
lemma stepToward_closes (r target : Int) (h : target ≠ r) :
    |target - (r + stepToward r target)| + 1 = |target - r| := by
  unfold stepToward
  rcases lt_trichotomy r target with h1 | h1 | h1
  · rw [if_pos h1, abs_of_nonneg (by omega), abs_of_nonneg (by omega)]
    omega
  · exact absurd h1.symm h
  · rw [if_neg (by omega), if_pos h1, abs_of_nonpos (by omega),
      abs_of_nonpos (by omega)]
    omega

/-- On an equal axis, `stepToward` stays put. -/
lemma stepToward_self (r : Int) : stepToward r r = 0 := by
  unfold stepToward
  rw [if_neg (lt_irrefl r), if_neg (lt_irrefl r)]

/-- A `stepToward` step between two values in a common interval stays in the
interval. -/
lemma stepToward_bounds (lo hi r target : Int) (hr1 : lo ≤ r) (hr2 : r ≤ hi)
    (ht1 : lo ≤ target) (ht2 : target ≤ hi) :
    lo ≤ r + stepToward r target ∧ r + stepToward r target ≤ hi := by
  unfold stepToward
  split_ifs <;> omega

/-! ### Properties of `move_raven` -/

/-- `move_raven` touches only the raven position. -/
lemma move_raven_fields (s : RoundState) (rc : Nat) :
    (move_raven s rc).level = s.level ∧ (move_raven s rc).score = s.score ∧
    (move_raven s rc).collected = s.collected ∧
    (move_raven s rc).required = s.required ∧
    (move_raven s rc).player_pos = s.player_pos ∧
    (move_raven s rc).mushrooms = s.mushrooms ∧
    (move_raven s rc).start_time = s.start_time := by
  unfold move_raven
  split
  · exact ⟨rfl, rfl, rfl, rfl, rfl, rfl, rfl⟩
  · dsimp only
    generalize possibleMoves s.raven_pos.1 s.raven_pos.2 = pm
    cases pm with
    | nil => exact ⟨rfl, rfl, rfl, rfl, rfl, rfl, rfl⟩
    | cons mv mvs => exact ⟨rfl, rfl, rfl, rfl, rfl, rfl, rfl⟩

/-- With mushrooms on the board, `move_raven` steps one `stepToward` per axis
toward the `pyminBy` target. -/
lemma move_raven_greedy_eq (s : RoundState) (rc : Nat) (m : Pos) (ms : List Pos)
    (hm : s.mushrooms = m :: ms) :
    (move_raven s rc).raven_pos =
      (s.raven_pos.1 + stepToward s.raven_pos.1
        (pyminBy (fun pos => manhattan pos s.raven_pos) m ms).1,
       s.raven_pos.2 + stepToward s.raven_pos.2
        (pyminBy (fun pos => manhattan pos s.raven_pos) m ms).2) := by
  unfold move_raven
  rw [hm]

/-- Membership in the `possible_moves` list forces one of the four unit
moves, each guarded by the bound that keeps it on the board. -/
lemma mem_ite_singleton {c : Prop} [Decidable c] {v d : Pos}
    (h : d ∈ (if c then [v] else [])) : c ∧ d = v := by
  split at h
  · exact ⟨by assumption, List.mem_singleton.mp h⟩
  · simp at h

/-- Any member of `possible_moves` keeps an in-grid raven in the grid. -/
lemma possibleMoves_sound (rx ry : Int) (d : Pos)
    (hd : d ∈ possibleMoves rx ry) (h : inGrid (rx, ry)) :
    inGrid (rx + d.1, ry + d.2) := by
  obtain ⟨h1, h2, h3, h4⟩ := h
  simp only at h1 h2 h3 h4
  unfold possibleMoves at hd
  rcases List.mem_append.mp hd with hd | hd
  · rcases List.mem_append.mp hd with hd | hd
    · rcases List.mem_append.mp hd with hd | hd
      · obtain ⟨hc, rfl⟩ := mem_ite_singleton hd
        exact ⟨by simpa using by omega, by simpa [BOARD_SIZE] using by simp [BOARD_SIZE] at h2; omega,
          by simpa using h3, by simpa using h4⟩
      · obtain ⟨hc, rfl⟩ := mem_ite_singleton hd
        refine ⟨by simpa using by omega, ?_, by simpa using h3, by simpa using h4⟩
        simp only [BOARD_SIZE] at hc ⊢
        omega
    · obtain ⟨hc, rfl⟩ := mem_ite_singleton hd
      refine ⟨by simpa using h1, by simpa using h2, by simpa using by omega, ?_⟩
      simp only [BOARD_SIZE] at h4 ⊢
      omega
  · obtain ⟨hc, rfl⟩ := mem_ite_singleton hd
    refine ⟨by simpa using h1, by simpa using h2, by simpa using by omega, ?_⟩
    simp only [BOARD_SIZE] at hc ⊢
    omega

/-- The clamped player move never leaves the grid, whatever the direction
string is. -/
lemma clampMove_inGrid (p : Pos) (dir : String) (hp : inGrid p) :
    inGrid (clampMove p dir) := by
  obtain ⟨h1, h2, h3, h4⟩ := hp
  simp only [BOARD_SIZE] at h2 h4
  unfold clampMove
  split_ifs <;> refine ⟨?_, ?_, ?_, ?_⟩ <;> (try simp only [BOARD_SIZE]) <;>
    (try dsimp only) <;> omega

/-- The raven stays on the board provided every mushroom is on the board. -/
lemma move_raven_inGrid (s : RoundState) (rc : Nat) (hr : inGrid s.raven_pos)
    (hm : ∀ q ∈ s.mushrooms, inGrid q) :
    inGrid (move_raven s rc).raven_pos := by
  cases hmu : s.mushrooms with
  | cons m ms =>
    rw [move_raven_greedy_eq s rc m ms hmu]
    have htm : pyminBy (fun pos => manhattan pos s.raven_pos) m ms ∈ m :: ms :=
      (pyminBy_first (fun pos => manhattan pos s.raven_pos) m ms).1
    obtain ⟨a1, a2, a3, a4⟩ := hm _ (hmu ▸ htm)
    obtain ⟨b1, b2, b3, b4⟩ := hr
    obtain ⟨c1, c2⟩ := stepToward_bounds 0 (BOARD_SIZE - 1) s.raven_pos.1
      (pyminBy (fun pos => manhattan pos s.raven_pos) m ms).1 b1 b2 a1 a2
    obtain ⟨c3, c4⟩ := stepToward_bounds 0 (BOARD_SIZE - 1) s.raven_pos.2
      (pyminBy (fun pos => manhattan pos s.raven_pos) m ms).2 b3 b4 a3 a4
    exact ⟨c1, c2, c3, c4⟩
  | nil =>
    unfold move_raven
    rw [hmu]
    dsimp only
    cases hpm : possibleMoves s.raven_pos.1 s.raven_pos.2 with
    | nil => exact hr
    | cons mv mvs =>
      have hdm := List.get_mem (mv :: mvs)
        (rc % (mv :: mvs).length) (Nat.mod_lt rc (Nat.succ_pos mvs.length))
      exact possibleMoves_sound s.raven_pos.1 s.raven_pos.2 _
        (by rw [hpm]; exact hdm) hr

/-! ### Claim theorems -/

/-- C4: with a non-empty mushroom list, one `move_raven` step targets the
first mushroom in encounter order minimising the Manhattan distance to the
raven (it is a member, its distance is minimal, and `find?` locates exactly
it as the first element at or below its distance), and moves the raven by
the sign of the per-axis gap, both axes moving simultaneously when both
differ. -/
theorem raven_greedy_step (s : RoundState) (m : Pos) (ms : List Pos) (rc : Nat)
    (hm : s.mushrooms = m :: ms) :
    let target := pyminBy (fun pos => manhattan pos s.raven_pos) m ms
    target ∈ s.mushrooms ∧
    (∀ q ∈ s.mushrooms, manhattan target s.raven_pos ≤ manhattan q s.raven_pos) ∧
    s.mushrooms.find?
        (fun q => decide (manhattan q s.raven_pos ≤ manhattan target s.raven_pos)) =
      some target ∧
    (move_raven s rc).raven_pos =
      (s.raven_pos.1 + (target.1 - s.raven_pos.1).sign,
       s.raven_pos.2 + (target.2 - s.raven_pos.2).sign) := by
  obtain ⟨h1, h2, h3⟩ := pyminBy_first (fun pos => manhattan pos s.raven_pos) m ms
  refine ⟨by rw [hm]; exact h1, by rw [hm]; exact h2, by rw [hm]; exact h3, ?_⟩
  rw [move_raven_greedy_eq s rc m ms hm, stepToward_eq_sign, stepToward_eq_sign]

/-- Witness for C4 at the spec's own example: mushrooms `[(3,3)]`, raven at
`(0,0)`; the raven steps diagonally to `(1,1)`. -/
theorem raven_greedy_step_witness :
    (move_raven exGreedyState 0).raven_pos = (1, 1) := by
  have h := raven_greedy_step exGreedyState (3, 3) [] 0 rfl
  exact h.2.2.2.trans (by decide)

/-- C10: when the raven is not already on its chosen target, one step
strictly decreases the Manhattan distance to that target: by 2 when both
axes differ, by 1 when exactly one does. -/
theorem raven_distance_decreases (s : RoundState) (m : Pos) (ms : List Pos)
    (rc : Nat) (target : Pos) (hm : s.mushrooms = m :: ms)
    (htarget : target = pyminBy (fun pos => manhattan pos s.raven_pos) m ms)
    (hne : target ≠ s.raven_pos) :
    manhattan target (move_raven s rc).raven_pos < manhattan target s.raven_pos ∧
    (target.1 ≠ s.raven_pos.1 → target.2 ≠ s.raven_pos.2 →
      manhattan target (move_raven s rc).raven_pos + 2 =
        manhattan target s.raven_pos) ∧
    ((target.1 = s.raven_pos.1 ∨ target.2 = s.raven_pos.2) →
      manhattan target (move_raven s rc).raven_pos + 1 =
        manhattan target s.raven_pos) := by
  rw [move_raven_greedy_eq s rc m ms hm, ← htarget]
  simp only [manhattan]
  by_cases h1 : target.1 = s.raven_pos.1
  · have h2 : target.2 ≠ s.raven_pos.2 := by
      intro h2
      exact hne (Prod.ext h1 h2)
    have k2 := stepToward_closes s.raven_pos.2 target.2 h2
    rw [h1, stepToward_self]
    simp only [add_zero, sub_self, abs_zero]
    refine ⟨by omega, fun hc _ => absurd rfl hc, fun _ => by omega⟩
  · by_cases h2 : target.2 = s.raven_pos.2
    · have k1 := stepToward_closes s.raven_pos.1 target.1 h1
      rw [h2, stepToward_self]
      simp only [add_zero, sub_self, abs_zero]
      refine ⟨by omega, fun _ hc => absurd rfl hc, fun _ => by omega⟩
    · have k1 := stepToward_closes s.raven_pos.1 target.1 h1
      have k2 := stepToward_closes s.raven_pos.2 target.2 h2
      refine ⟨by omega, fun _ _ => by omega, fun hc => ?_⟩
      rcases hc with hc | hc
      · exact absurd hc h1
      · exact absurd hc h2

/-- Witness for C10: at the `(3,3)` versus `(0,0)` example the distance
drops from 6 to 4 (a both-axes diagonal step). -/
theorem raven_distance_decreases_witness :
    manhattan (3, 3) (move_raven exGreedyState 0).raven_pos + 2 =
      manhattan (3, 3) exGreedyState.raven_pos := by
  have h := raven_distance_decreases exGreedyState (3, 3) [] 0 (3, 3) rfl rfl
    (by decide)
  exact h.2.1 (by decide) (by decide)

/-- C6 counterexample: in-bounds player and raven do not suffice — with a
mushroom placed off the board at `(10,0)`, the greedy raven step (which the
code never clamps) leaves the grid. -/
theorem move_bounds_counterexample :
    inGrid exBadBoundsState.player_pos ∧ inGrid exBadBoundsState.raven_pos ∧
    ¬ inGrid (move_raven exBadBoundsState 0).raven_pos := by
  refine ⟨by decide, by decide, ?_⟩
  intro h
  have : (move_raven exBadBoundsState 0).raven_pos = (10, 0) := by decide
  rw [this] at h
  exact absurd h.2.1 (by decide)

/-- C6 amended: if additionally every mushroom lies on the board, then the
player position after the movement step and the raven position after the
adversary step stay within `[0, BOARD_SIZE-1]` on both axes, for every
direction string and every random choice. -/
theorem move_bounds (s : RoundState) (dir : String) (rc : Nat)
    (hp : inGrid s.player_pos) (hr : inGrid s.raven_pos)
    (hm : ∀ q ∈ s.mushrooms, inGrid q) :
    inGrid (clampMove s.player_pos dir) ∧
    inGrid (move_raven s rc).raven_pos :=
  ⟨clampMove_inGrid s.player_pos dir hp, move_raven_inGrid s rc hr hm⟩

/-- Witness for the amended C6 on a concrete in-bounds state. -/
theorem move_bounds_witness :
    inGrid (clampMove exBoundsState.player_pos "up") ∧
    inGrid (move_raven exBoundsState 3).raven_pos :=
  move_bounds exBoundsState "up" 3 (by decide) (by decide) (by decide)

/-- C7: `spawn_mushroom` is a no-op at or above `MAX_MUSHROOMS`, adds exactly
one mushroom below it, and any number of successful spawn attempts keeps the
count at or below `MAX_MUSHROOMS`. -/
theorem spawn_respects_cap (s : RoundState) (draws : List Pos) :
    (MAX_MUSHROOMS ≤ s.mushrooms.length →
      spawn_mushroom s draws = some (s, draws)) ∧
    (∀ s' d', s.mushrooms.length < MAX_MUSHROOMS →
      spawn_mushroom s draws = some (s', d') →
      s'.mushrooms.length = s.mushrooms.length + 1) ∧
    (∀ n s' d', s.mushrooms.length ≤ MAX_MUSHROOMS →
      spawnN n s draws = some (s', d') →
      s'.mushrooms.length ≤ MAX_MUSHROOMS) := by
  refine ⟨?_, ?_, ?_⟩
  · intro hfull
    unfold spawn_mushroom
    rw [if_pos hfull]
  · intro s' d' hlt h
    rcases spawn_mushroom_cases s s' draws d' h with he | ⟨_, p, _, _, _, he⟩
    · exfalso
      unfold spawn_mushroom at h
      rw [if_neg (Nat.not_le.mpr hlt)] at h
      obtain ⟨q, _, _, hq3, hq4⟩ := spawnLoop_success draws s s' d' h
      have hbad := congrArg (fun st => st.mushrooms.length) (he.symm.trans hq4)
      simp only [List.length_append, List.length_singleton] at hbad
      omega
    · subst he
      simp
  · intro n s' d' hle h
    exact spawnN_le_max n s draws s' d' h hle

/-- Witness for C7: a full board is left untouched, and one spawn attempt on
a one-mushroom board yields two mushrooms. -/
theorem spawn_respects_cap_witness :
    spawn_mushroom exFullState [(7, 7)] = some (exFullState, [(7, 7)]) ∧
    (spawn_mushroom exRoomState [(7, 7)] =
        some ({ exRoomState with mushrooms := [(2, 2), (7, 7)] }, []) →
      ({ exRoomState with mushrooms := [(2, 2), (7, 7)] } :
        RoundState).mushrooms.length = exRoomState.mushrooms.length + 1) := by
  constructor
  · exact (spawn_respects_cap exFullState [(7, 7)]).1 (by decide)
  · exact (spawn_respects_cap exRoomState [(7, 7)]).2.1 _ _ (by decide)

/-- C8: a successful `init_game` always yields level 1, score 0, collected 0,
required 3, player at the origin, raven at the far corner, and exactly 3
pairwise-distinct mushrooms, none on the player or the raven. -/
theorem init_game_spec (now : Int) (draws : List Pos) (s : RoundState)
    (h : init_game now draws = some s) :
    s.level = 1 ∧ s.score = 0 ∧ s.collected = 0 ∧ s.required = 3 ∧
    s.player_pos = (0, 0) ∧
    s.raven_pos = (BOARD_SIZE - 1, BOARD_SIZE - 1) ∧
    s.mushrooms.length = 3 ∧ s.mushrooms.Nodup ∧
    (∀ q ∈ s.mushrooms, q ≠ s.player_pos ∧ q ≠ s.raven_pos) := by
  unfold init_game at h
  rw [Option.map_eq_some'] at h
  obtain ⟨⟨s1, d1⟩, hspawn, hfst⟩ := h
  rcases hfst
  obtain ⟨e1, e2, e3, e4, e5, e6, e7⟩ := spawnN_fields 3 (initState now) draws s1 d1 hspawn
  obtain ⟨g1, g2, g3⟩ := spawnN_inventory 3 (initState now) draws s1 d1 hspawn
    (by simp [initState, MAX_MUSHROOMS])
  refine ⟨e1, e2, e3, e4, e5, e6, by simpa using g1,
    g2 List.nodup_nil, ?_⟩
  intro q hq
  rcases g3 q hq with hmem | hfresh
  · exact absurd hmem (List.not_mem_nil q)
  · rw [e5, e6]
    exact hfresh

/-- Witness for C8 at concrete draws `(1,1), (2,2), (3,3)`. -/
theorem init_game_spec_witness :
    exInitResult.level = 1 ∧ exInitResult.score = 0 ∧
    exInitResult.collected = 0 ∧ exInitResult.required = 3 ∧
    exInitResult.player_pos = (0, 0) ∧
    exInitResult.raven_pos = (BOARD_SIZE - 1, BOARD_SIZE - 1) ∧
    exInitResult.mushrooms.length = 3 ∧ exInitResult.mushrooms.Nodup ∧
    (∀ q ∈ exInitResult.mushrooms,
      q ≠ exInitResult.player_pos ∧ q ≠ exInitResult.raven_pos) :=
  init_game_spec 5 [(1, 1), (2, 2), (3, 3)] exInitResult (by decide)

/-- C9: below the cap, the rejection-sampling loop returns on any draw
sequence that eventually hits a free cell, and when some in-grid cell is
free of the player, the raven and all mushrooms, a draw sequence exists on
which `spawn_mushroom` terminates. -/
theorem spawn_terminates (s : RoundState)
    (hlen : s.mushrooms.length < MAX_MUSHROOMS)
    (hfree : ∃ p, inGrid p ∧ p ≠ s.player_pos ∧ p ≠ s.raven_pos ∧
      p ∉ s.mushrooms) :
    (∀ draws : List Pos,
      (∃ p ∈ draws, p ≠ s.player_pos ∧ p ≠ s.raven_pos ∧ p ∉ s.mushrooms) →
      (spawn_mushroom s draws).isSome) ∧
    (∃ draws : List Pos, (∀ q ∈ draws, inGrid q) ∧
      (spawn_mushroom s draws).isSome) := by
  have hloop : ∀ draws : List Pos,
      (∃ p ∈ draws, p ≠ s.player_pos ∧ p ≠ s.raven_pos ∧ p ∉ s.mushrooms) →
      (spawnLoop s draws).isSome := by
    intro draws
    induction draws with
    | nil => rintro ⟨p, hp, _⟩; exact absurd hp (List.not_mem_nil p)
    | cons q rest ih =>
      rintro ⟨p, hp, hp1, hp2, hp3⟩
      rw [spawnLoop]
      split
      · rename_i hq
        rcases List.mem_cons.mp hp with rfl | hp
        · rcases hq with hq | hq | hq
          · exact absurd hq hp1
          · exact absurd hq hp2
          · exact absurd hq hp3
        · exact ih ⟨p, hp, hp1, hp2, hp3⟩
      · rfl
  have hspawn : ∀ draws : List Pos,
      (∃ p ∈ draws, p ≠ s.player_pos ∧ p ≠ s.raven_pos ∧ p ∉ s.mushrooms) →
      (spawn_mushroom s draws).isSome := by
    intro draws hdraws
    unfold spawn_mushroom
    rw [if_neg (Nat.not_le.mpr hlen)]
    exact hloop draws hdraws
  refine ⟨hspawn, ?_⟩
  obtain ⟨p, hpg, hp1, hp2, hp3⟩ := hfree
  exact ⟨[p], fun q hq => (List.mem_singleton.mp hq) ▸ hpg,
    hspawn [p] ⟨p, List.mem_singleton_self p, hp1, hp2, hp3⟩⟩

/-- Witness for C9 on a concrete one-mushroom board and the draw list
`[(1,1)]`. -/
theorem spawn_terminates_witness :
    (spawn_mushroom exRoomState [(1, 1)]).isSome := by
  have h := spawn_terminates exRoomState (by decide)
    ⟨(1, 1), by decide, by decide, by decide, by decide⟩
  exact h.1 [(1, 1)] ⟨(1, 1), by decide, by decide, by decide, by decide⟩

/-- C1: on an expired round with the requirement met, `update_game_state`
advances the level by 1, raises `required` by 2, resets `collected`,
positions and timer, replaces the mushrooms with exactly 3 freshly spawned
ones (distinct, off the reset player and raven positions), returns the
level-up message, and keeps the session in the registry. -/
theorem levelUp_transition (s : RoundState) (dir : String) (now : Int)
    (draws : List Pos) (rc : Nat) (doSpawn : Bool) (s2 : RoundState)
    (rest : List Pos)
    (hTime : s.start_time + ROUND_DURATION ≤ now)
    (hReq : s.required ≤ s.collected)
    (hs : spawnN 3 (levelUpReset s) draws = some (s2, rest)) :
    update_game_state (some s) dir now draws rc doSpawn =
      some (levelUpMsg (s.level + 1), some { s2 with start_time := now }) ∧
    s2.level = s.level + 1 ∧ s2.required = s.required + 2 ∧
    s2.collected = 0 ∧ s2.score = s.score ∧
    s2.player_pos = (0, 0) ∧
    s2.raven_pos = (BOARD_SIZE - 1, BOARD_SIZE - 1) ∧
    s2.mushrooms.length = 3 ∧ s2.mushrooms.Nodup ∧
    (∀ q ∈ s2.mushrooms, q ≠ (0, 0) ∧ q ≠ (BOARD_SIZE - 1, BOARD_SIZE - 1)) := by
  obtain ⟨e1, e2, e3, e4, e5, e6, e7⟩ :=
    spawnN_fields 3 (levelUpReset s) draws s2 rest hs
  obtain ⟨g1, g2, g3⟩ := spawnN_inventory 3 (levelUpReset s) draws s2 rest hs
    (by simp [levelUpReset, MAX_MUSHROOMS])
  refine ⟨?_, e1, e4, e3, e2, e5, e6, by simpa using g1,
    g2 List.nodup_nil, ?_⟩
  · simp only [update_game_state]
    rw [if_pos (by omega), if_pos hReq, hs]
    dsimp only
    rw [e1]
    rfl
  · intro q hq
    rcases g3 q hq with hmem | hfresh
    · exact absurd hmem (List.not_mem_nil q)
    · exact hfresh

/-- Witness for C1: the concrete state with `collected = required = 3`
levels up at `now = 60` on the draws `(1,1), (2,2), (3,3)`. -/
theorem levelUp_transition_witness :
    update_game_state (some exLevelUpState) "up" 60 [(1, 1), (2, 2), (3, 3)]
        0 false =
      some (levelUpMsg (exLevelUpState.level + 1),
        some { exLevelUpAfter with start_time := 60 }) ∧
    exLevelUpAfter.mushrooms.length = 3 :=
  have h := levelUp_transition exLevelUpState "up" 60 [(1, 1), (2, 2), (3, 3)]
    0 false exLevelUpAfter [] (by decide) (by decide) (by decide)
  ⟨h.1, h.2.2.2.2.2.2.2.1⟩

/-- C2: in a running round, if the raven lands on the player after the
movement, collection and adversary steps, `update_game_state` returns the
caught message and removes the session, and a call on a removed session
returns the not-started message. -/
theorem caught_removes_session (s : RoundState) (dir : String) (now : Int)
    (draws : List Pos) (rc : Nat) (doSpawn : Bool)
    (hTime : now < s.start_time + ROUND_DURATION)
    (hCatch : (afterMoves s dir rc).player_pos =
      (afterMoves s dir rc).raven_pos) :
    update_game_state (some s) dir now draws rc doSpawn =
      some (caughtMsg, none) ∧
    update_game_state none dir now draws rc doSpawn =
      some (notStartedMsg, none) := by
  refine ⟨?_, rfl⟩
  simp only [update_game_state]
  rw [if_neg (by omega), if_pos hCatch]

/-- Witness for C2: moving up from `(3,4)` the player collects `(3,3)` and
the raven steps from `(2,2)` onto the player. -/
theorem caught_removes_session_witness :
    update_game_state (some exCaughtState) "up" 0 [] 0 false =
      some (caughtMsg, none) ∧
    update_game_state none "up" 0 [] 0 false =
      some (notStartedMsg, none) :=
  caught_removes_session exCaughtState "up" 0 [] 0 false (by decide) (by decide)

/-- C3: on an expired round with the requirement unmet, `update_game_state`
returns the game-over message and removes the session — independently of the
direction, the draws, the raven choice and the respawn coin, so no movement,
collection, adversary or respawn step influences the outcome — and a call on
a removed session returns the not-started message. -/
theorem timeout_gameOver (s : RoundState) (dir : String) (now : Int)
    (draws : List Pos) (rc : Nat) (doSpawn : Bool)
    (hTime : s.start_time + ROUND_DURATION ≤ now)
    (hReq : s.collected < s.required) :
    update_game_state (some s) dir now draws rc doSpawn =
      some (gameOverMsg, none) ∧
    update_game_state none dir now draws rc doSpawn =
      some (notStartedMsg, none) := by
  refine ⟨?_, rfl⟩
  simp only [update_game_state]
  rw [if_pos (by omega), if_neg (Nat.not_le.mpr hReq)]

/-- Witness for C3: the round that expired with 2 of 3 mushrooms. -/
theorem timeout_gameOver_witness :
    update_game_state (some exExpiredState) "left" 60 [] 0 true =
      some (gameOverMsg, none) ∧
    update_game_state none "left" 60 [] 0 true =
      some (notStartedMsg, none) :=
  timeout_gameOver exExpiredState "left" 60 [] 0 true (by decide) (by decide)

/-- C5: in the collection step of `update_game_state`, landing on a mushroom
removes exactly that mushroom (the first occurrence; every other position's
multiplicity is untouched), adds exactly 10 to the score and 1 to the
collected count; landing elsewhere changes nothing.  The raven step that
follows inside `update_game_state` preserves score, collected count and
mushrooms. -/
theorem collect_step_effects (s : RoundState) (dir : String) (rc : Nat)
    (s1 : RoundState)
    (hs1 : s1 = { s with player_pos := clampMove s.player_pos dir }) :
    (s1.player_pos ∈ s1.mushrooms →
      (collectStep s1).mushrooms = s1.mushrooms.erase s1.player_pos ∧
      (collectStep s1).mushrooms.length + 1 = s1.mushrooms.length ∧
      (collectStep s1).mushrooms.count s1.player_pos + 1 =
        s1.mushrooms.count s1.player_pos ∧
      (∀ q : Pos, q ≠ s1.player_pos →
        (collectStep s1).mushrooms.count q = s1.mushrooms.count q) ∧
      (collectStep s1).score = s.score + 10 ∧
      (collectStep s1).collected = s.collected + 1) ∧
    (s1.player_pos ∉ s1.mushrooms → collectStep s1 = s1) ∧
    (afterMoves s dir rc).score = (collectStep s1).score ∧
    (afterMoves s dir rc).collected = (collectStep s1).collected ∧
    (afterMoves s dir rc).mushrooms = (collectStep s1).mushrooms := by
  subst hs1
  refine ⟨?_, ?_, ?_, ?_, ?_⟩
  · intro hmem
    unfold collectStep
    rw [if_pos hmem]
    refine ⟨rfl, ?_, ?_, ?_, rfl, rfl⟩
    · have hpos := List.length_pos_of_mem hmem
      have hlen := List.length_erase_of_mem hmem
      dsimp only at hpos hlen ⊢
      omega
    · have hpos := List.count_pos_iff.mpr hmem
      have hcnt := List.count_erase_self
        ({ s with player_pos := clampMove s.player_pos dir } : RoundState).player_pos
        ({ s with player_pos := clampMove s.player_pos dir } : RoundState).mushrooms
      dsimp only at hpos hcnt ⊢
      omega
    · intro q hq
      exact List.count_erase_of_ne hq _
  · intro hnmem
    unfold collectStep
    rw [if_neg hnmem]
  · exact (move_raven_fields _ rc).2.1
  · exact (move_raven_fields _ rc).2.2.1
  · exact (move_raven_fields _ rc).2.2.2.2.2.1

/-- Witness for C5: moving up from `(3,4)` onto the mushroom at `(3,3)`
adds 10 to the score and 1 to the collected count. -/
theorem collect_step_effects_witness :
    (collectStep { exCollectState with
        player_pos := clampMove exCollectState.player_pos "up" }).score =
      exCollectState.score + 10 ∧
    (collectStep { exCollectState with
        player_pos := clampMove exCollectState.player_pos "up" }).collected =
      exCollectState.collected + 1 := by
  have h := collect_step_effects exCollectState "up" 0 _ rfl
  have h2 := h.1 (by decide)
  exact ⟨h2.2.2.2.2.1, h2.2.2.2.2.2⟩

end Shroom
